import Mathlib

/-!
Shallow embedding of the transmission-line analysis core of the
EMT-Assignment02 repository (src/tl_basics.py, src/tl_abcd.py,
src/tl_metrics.py, src/tl_matching.py), together with theorems settling the
specification claims about it.

Modelling conventions, used consistently below:
* Python/numpy floats and complexes are embedded as exact `ℝ` and `ℂ`.
* `np.sqrt` on a complex argument is the principal branch square root,
  `z ^ (1/2 : ℂ)` (both take the branch cut along the negative real axis and
  return the root with argument `arg z / 2 ∈ (-π/2, π/2]`).
* `np.inf` sentinels returned by `z_in_from_abcd` are modelled by `none` in
  an `Option ℂ` result; the infinite VSWR is modelled by `⊤ : EReal`.
* IEEE NaNs that reach a returned record are modelled by `none` in `Option`
  fields (the quarter-wave `VSWR_src` at `ZL = 0`; the stub `l_stub` and
  `VSWR_src` when the stub target susceptance is zero).  Lean's total
  division (`x / 0 = 0`) is never used to stand for a NaN or crash: every
  such path is modelled by an explicit branch at the place the source
  diverges from the total formula.
* `np.isclose(beta, 0.0)` with numpy defaults (`rtol=1e-5`, `atol=1e-8`)
  reduces to `|beta| ≤ 1e-8` because the second argument is zero.
* `raise ValueError(msg)` is modelled by `Except.error msg`; a function that
  can crash with an unhandled (non-descriptive) exception is modelled with an
  `Option` result, `none` standing for the crash.
-/

open scoped Real

noncomputable section

namespace TL

/-- numpy's principal-branch complex square root: `np.sqrt(z)` for a complex
`z` is `exp(log(z)/2)` with the principal logarithm, i.e. `z ^ (1/2)` as a
complex power. -/
def csqrt (z : ℂ) : ℂ := z ^ (((1 : ℝ) / 2 : ℝ) : ℂ)

/-- The shunt admittance per unit length `Y = G + 1j*omega*C` computed inside
`gamma_Z0` (a Python `complex`: `omega = 2*np.pi*freq` is a plain float). -/
def line_Y (G C freq : ℝ) : ℂ :=
  (G : ℂ) + ((2 * π * freq * C : ℝ) : ℂ) * Complex.I

/-- `tl_basics.gamma_Z0(R, L, G, C, freq)`: propagation constant and
characteristic impedance of a uniform line,
`omega = 2*pi*freq`, `Z = R + 1j*omega*L`, `Y = G + 1j*omega*C`,
`gamma = sqrt(Z*Y)`, `Z0 = sqrt(Z/Y)`.

Partiality: when `Y = 0` (i.e. `G = 0` and `omega*C = 0`) the source raises
`ZeroDivisionError` at the Python complex division `Z / Y`, before returning
anything — there is no descriptive error for this path.  This embedding is the
total formula (Lean's `x / 0 = 0` makes `Z0 = sqrt 0 = 0` junk there); every
embedded caller models that crash explicitly instead of consuming the junk:
`quarter_wave_transform` returns its crash value `none` when
`line_Y G C f0 = 0`, and in `single_stub_shunt` the `Y = 0` inputs are exactly
inputs with `beta = 0`, on which the solver is modelled as crashing (`none`)
— see `stub_grid` and `single_stub_shunt`. -/
def gamma_Z0 (R L G C freq : ℝ) : ℂ × ℂ :=
  let omega := 2 * π * freq
  let Z : ℂ := (R : ℂ) + ((omega * L : ℝ) : ℂ) * Complex.I
  let Y : ℂ := (G : ℂ) + ((omega * C : ℝ) : ℂ) * Complex.I
  (csqrt (Z * Y), csqrt (Z / Y))

/-- `tl_metrics.gamma_of_impedance(ZL, Z0)`: reflection coefficient
`(ZL - Z0)/(ZL + Z0)`, returning `1.0` exactly when `|ZL + Z0| < 1e-12`. -/
def gamma_of_impedance (ZL Z0 : ℂ) : ℂ :=
  if Complex.abs (ZL + Z0) < 1e-12 then 1
  else (ZL - Z0) / (ZL + Z0)

/-- `tl_metrics.vswr_from_gamma(gamma)`: `inf` (here `⊤ : EReal`) when
`|gamma| >= 1`, else `(1 + |gamma|)/(1 - |gamma|)`. -/
def vswr_from_gamma (gamma : ℂ) : EReal :=
  if 1 ≤ Complex.abs gamma then ⊤
  else (((1 + Complex.abs gamma) / (1 - Complex.abs gamma) : ℝ) : EReal)

/-- `tl_matching.QWTMatchResult`: result record of the quarter-wave solver.
`VSWR_src` is `Option EReal`: `some v` a real-or-infinite VSWR, `none` the
IEEE NaN the source propagates when the ideal input impedance `Zt**2/ZL` is
the indeterminate `0/0` (at `ZL = 0`). -/
structure QWTMatchResult where
  VSWR_src : Option EReal
  l_qw : ℝ
  Zt : ℂ
  j_index : ℕ

/-- `tl_matching.quarter_wave_transform(R, L, G, C, f0, ZL)`, with its three
non-normal paths modelled explicitly:
* `line_Y G C f0 = 0`: the call into `gamma_Z0` raises `ZeroDivisionError`
  at the Python complex division `Z / Y`, before the `beta` guard ever runs —
  an unhandled crash, `none`;
* `|beta| ≤ 1e-8` (the guard `np.isclose(beta, 0.0)` with numpy defaults and
  second argument zero): the source raises its descriptive `ValueError`,
  `some (Except.error ...)`;
* `ZL = 0`: `Zt = sqrt(Z0*0) = 0` and `Zin = Zt**2/ZL` is the numpy complex
  `0/0`, i.e. NaN; the NaN passes through `gamma_of_impedance` (its `< 1e-12`
  guard is False on NaN) and `vswr_from_gamma` (its `>= 1` guard is False on
  NaN), so the function returns normally with `VSWR_src = NaN`, modelled
  `VSWR_src = none`. -/
def quarter_wave_transform (R L G C f0 : ℝ) (ZL : ℂ) :
    Option (Except String QWTMatchResult) :=
  if line_Y G C f0 = 0 then
    none
  else
    let gz := gamma_Z0 R L G C f0
    let Z0 := gz.2
    let beta := gz.1.im
    if |beta| ≤ 1e-8 then
      some (Except.error "Quarter-wave undefined: beta (imag part of gamma) is zero.")
    else
      let Zt := csqrt (Z0 * ZL)
      let l_qw := π / (2 * beta)
      if ZL = 0 then
        some (Except.ok ⟨none, l_qw, Zt, 1⟩)
      else
        let Zin := Zt ^ 2 / ZL
        let Gamma_in := gamma_of_impedance Zin Z0
        some (Except.ok ⟨some (vswr_from_gamma Gamma_in), l_qw, Zt, 1⟩)

/-- Spec-side first-minimum selection: the earliest sample whose error is
below the sentinel and at most the error of every later sample. -/
def earliest_min (e : ℝ → ℝ) : List ℝ → ℝ → Option ℝ
  | [], _ => none
  | d :: ds, m =>
    if e d < m ∧ ∀ x ∈ ds, e d ≤ e x then some d
    else earliest_min e ds (min m (e d))

/-- The spec-side selection only ever picks a sample of the list. -/
lemma earliest_min_mem {e : ℝ → ℝ} {xs : List ℝ} {m d : ℝ}
    (h : earliest_min e xs m = some d) : d ∈ xs := by
  induction xs generalizing m with
  | nil => exact absurd h (by simp [earliest_min])
  | cons x ds ih =>
    rw [earliest_min] at h
    by_cases hc : e x < m ∧ ∀ y ∈ ds, e x ≤ e y
    · rw [if_pos hc] at h
      rw [← Option.some_inj.1 h]
      exact List.mem_cons_self x ds
    · rw [if_neg hc] at h
      exact List.mem_cons_of_mem x (ih h)

lemma csqrt_zero : csqrt 0 = 0 := by
  rw [csqrt]
  exact Complex.zero_cpow (Complex.ofReal_ne_zero.2 (by norm_num))

lemma csqrt_one : csqrt 1 = 1 := Complex.one_cpow _

lemma csqrt_neg_one : csqrt (-1) = Complex.I := by
  rw [csqrt, Complex.cpow_def_of_ne_zero (by norm_num), Complex.log_neg_one]
  have h : (π : ℂ) * Complex.I * (((1 : ℝ) / 2 : ℝ) : ℂ) = ((π / 2 : ℝ) : ℂ) * Complex.I := by
    push_cast
    ring
  rw [h, Complex.exp_mul_I, ← Complex.ofReal_cos, ← Complex.ofReal_sin,
    Real.cos_pi_div_two, Real.sin_pi_div_two]
  simp

/-- The principal square root squares back to its argument. -/
lemma csqrt_sq (z : ℂ) : csqrt z ^ 2 = z := by
  by_cases hz : z = 0
  · rw [hz, csqrt_zero]
    ring
  · rw [csqrt, sq, ← Complex.cpow_add _ _ hz]
    have h : (((1 : ℝ) / 2 : ℝ) : ℂ) + (((1 : ℝ) / 2 : ℝ) : ℂ) = 1 := by
      push_cast
      norm_num
    rw [h, Complex.cpow_one]

lemma csqrt_def_ne {z : ℂ} (hz : z ≠ 0) :
    csqrt z = Complex.exp (Complex.log z * (((1 : ℝ) / 2 : ℝ) : ℂ)) :=
  Complex.cpow_def_of_ne_zero hz _

lemma log_half_im (z : ℂ) : (Complex.log z * (((1 : ℝ) / 2 : ℝ) : ℂ)).im = z.arg / 2 := by
  simp only [Complex.mul_im, Complex.ofReal_re, Complex.ofReal_im, Complex.log_im,
    mul_zero, zero_add]
  ring

lemma csqrt_im_nonneg {z : ℂ} (hz : 0 ≤ z.im) : 0 ≤ (csqrt z).im := by
  by_cases h0 : z = 0
  · simp [h0, csqrt_zero]
  · rw [csqrt_def_ne h0, Complex.exp_im, log_half_im]
    apply mul_nonneg (Real.exp_pos _).le
    apply Real.sin_nonneg_of_nonneg_of_le_pi
    · have := Complex.arg_nonneg_iff.2 hz
      linarith
    · have h1 := Complex.arg_le_pi z
      have h2 := Real.pi_pos
      linarith

lemma gamma_Z0_eq (R L G C freq : ℝ) :
    gamma_Z0 R L G C freq =
      (csqrt (((R : ℂ) + ((2 * π * freq * L : ℝ) : ℂ) * Complex.I) *
          ((G : ℂ) + ((2 * π * freq * C : ℝ) : ℂ) * Complex.I)),
        csqrt (((R : ℂ) + ((2 * π * freq * L : ℝ) : ℂ) * Complex.I) /
          ((G : ℂ) + ((2 * π * freq * C : ℝ) : ℂ) * Complex.I))) := rfl

/-- With non-negative line parameters the series-impedance/shunt-admittance
product has non-negative imaginary part, so `beta = Im(gamma) ≥ 0`. -/
lemma gamma_Z0_im_nonneg (R L G C f : ℝ) (hR : 0 ≤ R) (hL : 0 ≤ L) (hG : 0 ≤ G)
    (hC : 0 ≤ C) (hf : 0 ≤ f) : 0 ≤ (gamma_Z0 R L G C f).1.im := by
  rw [gamma_Z0_eq]
  apply csqrt_im_nonneg
  have hwL : 0 ≤ 2 * π * f * L :=
    mul_nonneg (mul_nonneg (by positivity) hf) hL
  have hwC : 0 ≤ 2 * π * f * C :=
    mul_nonneg (mul_nonneg (by positivity) hf) hC
  have him : (((R : ℂ) + ((2 * π * f * L : ℝ) : ℂ) * Complex.I) *
      ((G : ℂ) + ((2 * π * f * C : ℝ) : ℂ) * Complex.I)).im =
      R * (2 * π * f * C) + (2 * π * f * L) * G := by
    simp [Complex.mul_im]
  rw [him]
  exact add_nonneg (mul_nonneg hR hwC) (mul_nonneg hwL hG)

/-- `gamma_Z0(0, 1, 0, 1, 1/(2π))`: the unit lossless line, `gamma = i`,
`Z0 = 1`. -/
lemma gamma_Z0_lossless_unit : gamma_Z0 0 1 0 1 (1 / (2 * π)) = (Complex.I, 1) := by
  rw [gamma_Z0_eq]
  have h1 : (2 * π * (1 / (2 * π)) * 1 : ℝ) = 1 := by
    field_simp
  rw [h1]
  simp only [Complex.ofReal_zero, Complex.ofReal_one, zero_add, one_mul]
  rw [Complex.I_mul_I, div_self Complex.I_ne_zero, csqrt_neg_one, csqrt_one]

/-- Helper for C1: with non-negative line parameters, a phase constant that
passes the `np.isclose` guard is strictly positive. -/
lemma beta_pos_of_guard (R L G C f0 : ℝ) (hR : 0 ≤ R) (hL : 0 ≤ L) (hG : 0 ≤ G)
    (hC : 0 ≤ C) (hf : 0 ≤ f0) (hbeta : 1e-8 < |(gamma_Z0 R L G C f0).1.im|) :
    0 < (gamma_Z0 R L G C f0).1.im := by
  rcases (gamma_Z0_im_nonneg R L G C f0 hR hL hG hC hf).lt_or_eq with h | h
  · exact h
  · rw [← h] at hbeta
    norm_num at hbeta

/-- Helper: a zero shunt admittance forces `gamma = sqrt(Z*0) = 0`, so the
phase constant is zero (used to show the `ZeroDivisionError` path is disjoint
from a numerically non-zero `beta`). -/
lemma gamma_zero_of_line_Y_zero (R L G C f0 : ℝ) (h : line_Y G C f0 = 0) :
    (gamma_Z0 R L G C f0).1 = 0 := by
  have h' : (G : ℂ) + ((2 * π * f0 * C : ℝ) : ℂ) * Complex.I = 0 := h
  rw [gamma_Z0_eq, h', mul_zero, csqrt_zero]

/-- The shunt admittance of the lossless unit line `G=0, C=1, f0=1/(2π)`. -/
lemma line_Y_lossless_unit : line_Y 0 1 (1 / (2 * π)) = Complex.I := by
  rw [line_Y]
  have h1 : (2 * π * (1 / (2 * π)) * 1 : ℝ) = 1 := by
    field_simp
  rw [h1]
  simp

/-- C1 (amended): the claim quantifies over every load `ZL`, but at `ZL = 0`
the transform's ideal input impedance `Zt²/ZL` is the numpy complex `0/0`,
and the source returns `VSWR_src = NaN` (`none` here), not `1` — see
`quarter_wave_vswr_one_cex`.  For every host with non-negative parameters
whose phase constant passes the `np.isclose` guard, every non-zero load, and
a host `Z0` that does not trigger the `1e-12` reflection-coefficient
saturation, the solver returns exactly `VSWR_src = 1`, `l_qw = π/(2β) > 0`
and `Zt = sqrt(Z0*ZL)`. -/
theorem quarter_wave_vswr_one (R L G C f0 : ℝ) (ZL : ℂ) (hR : 0 ≤ R) (hL : 0 ≤ L)
    (hG : 0 ≤ G) (hC : 0 ≤ C) (hf : 0 ≤ f0)
    (hbeta : 1e-8 < |(gamma_Z0 R L G C f0).1.im|) (hZL : ZL ≠ 0)
    (hZ0 : 1e-12 ≤ Complex.abs ((gamma_Z0 R L G C f0).2 + (gamma_Z0 R L G C f0).2)) :
    quarter_wave_transform R L G C f0 ZL =
      some (Except.ok ⟨some 1, π / (2 * (gamma_Z0 R L G C f0).1.im),
        csqrt ((gamma_Z0 R L G C f0).2 * ZL), 1⟩) ∧
      0 < π / (2 * (gamma_Z0 R L G C f0).1.im) := by
  have hbpos := beta_pos_of_guard R L G C f0 hR hL hG hC hf hbeta
  have hY : line_Y G C f0 ≠ 0 := by
    intro h
    rw [gamma_zero_of_line_Y_zero R L G C f0 h] at hbeta
    norm_num at hbeta
  constructor
  · simp only [quarter_wave_transform]
    rw [if_neg hY, if_neg (not_le.2 hbeta), if_neg hZL]
    have hZin : csqrt ((gamma_Z0 R L G C f0).2 * ZL) ^ 2 / ZL =
        (gamma_Z0 R L G C f0).2 := by
      rw [csqrt_sq, mul_div_assoc, div_self hZL, mul_one]
    rw [hZin]
    have hGam : gamma_of_impedance (gamma_Z0 R L G C f0).2 (gamma_Z0 R L G C f0).2
        = 0 := by
      rw [gamma_of_impedance, if_neg (not_lt.2 hZ0), sub_self, zero_div]
    rw [hGam]
    have hvswr : vswr_from_gamma 0 = 1 := by
      rw [vswr_from_gamma, if_neg (by norm_num)]
      norm_num
    rw [hvswr]
  · exact div_pos Real.pi_pos (by linarith)

/-- C1 witness: the amended statement at the host `R=0, L=1, G=0, C=1`,
`f0 = 1/(2π)` (so `gamma = i`, `Z0 = 1`) with load `ZL = 100`. -/
theorem quarter_wave_vswr_one_witness :
    quarter_wave_transform 0 1 0 1 (1 / (2 * π)) 100 =
      some (Except.ok ⟨some 1, π / (2 * (gamma_Z0 0 1 0 1 (1 / (2 * π))).1.im),
        csqrt ((gamma_Z0 0 1 0 1 (1 / (2 * π))).2 * 100), 1⟩) ∧
      0 < π / (2 * (gamma_Z0 0 1 0 1 (1 / (2 * π))).1.im) :=
  quarter_wave_vswr_one 0 1 0 1 (1 / (2 * π)) 100 le_rfl zero_le_one le_rfl zero_le_one
    (by positivity)
    (by rw [gamma_Z0_lossless_unit]; simp [Complex.I_im]; norm_num)
    (by norm_num)
    (by rw [gamma_Z0_lossless_unit]; norm_num)

/-- C1 counterexample: at the host `R=0, L=1, G=0, C=1, f0 = 1/(2π)` (whose
phase constant is `β = 1`, not numerically zero) and the load `ZL = 0`, the
source computes `Zin = Zt**2/ZL = 0/0 = NaN`, the NaN falls through the
`< 1e-12` and `>= 1` guards, and the solver returns `VSWR_src = NaN`
(modelled `none`, with `Zt = 0`) — not `1`: the claim's "for every load
impedance ZL" fails at `ZL = 0`. -/
theorem quarter_wave_vswr_one_cex :
    quarter_wave_transform 0 1 0 1 (1 / (2 * π)) 0 =
      some (Except.ok ⟨none, π / 2, 0, 1⟩) ∧
      (none : Option EReal) ≠ some 1 := by
  constructor
  · simp only [quarter_wave_transform, gamma_Z0_lossless_unit, Complex.I_im]
    rw [if_neg (by rw [line_Y_lossless_unit]; exact Complex.I_ne_zero),
      if_neg (by norm_num), if_pos trivial, mul_zero, csqrt_zero]
    norm_num
  · simp

end TL

end
